import Mathlib

/-!
Verification of the notion-bills-tracker pipeline against its specification.

The development shallowly embeds the repository's four modules:

* `src/gmail_client.py`   — the email-body normalizer `_clean_email_body`
  (modelled character-exactly over `List Char`, with each `re.sub` call
  translated to a dedicated string transformer with Python `re` semantics);
* `src/gemini_processor.py` — `extract_bill_info`, the category-mapping
  loader, and the construction of the categorization guidance text;
* `src/notion_client.py`  — the default-filling in `add_bill_to_notion`;
* `src/main.py`           — the pipeline controller `main`, modelled as a
  trace-producing function over oracles for the mail source, the extractor
  provider, the record sink and the mark-as-read call.
-/

/-! ## Text normalizer (`GmailClient._clean_email_body`) -/

/-- Python `str` whitespace (ASCII fragment) as used by `str.strip()`. -/
def isPyWs (c : Char) : Bool :=
  c = ' ' || c = '\t' || c = '\n' || c = '\r' || c = '\x0b' || c = '\x0c'

/-- Boolean substring test: does `pat` occur contiguously inside `s`? -/
def hasInfix (pat : List Char) : List Char → Bool
  | [] => pat.isPrefixOf []
  | c :: t => pat.isPrefixOf (c :: t) || hasInfix pat t

/-- Model of `re.sub(pat ++ ".*", "", s, flags=re.DOTALL)` for a literal `pat`:
keep the prefix of `s` before the first occurrence of `pat`, discarding
everything from the marker onward; identity when `pat` does not occur. -/
def truncAt (pat : List Char) : List Char → List Char
  | [] => []
  | c :: t => if pat.isPrefixOf (c :: t) then [] else c :: truncAt pat t

/-- The suffix of `s` strictly after the last occurrence of `pat`
(`[]` when `pat` does not occur). -/
def afterLast (pat : List Char) : List Char → List Char
  | [] => []
  | c :: t =>
    if hasInfix pat t then afterLast pat t
    else if pat.isPrefixOf (c :: t) then List.drop pat.length (c :: t)
    else []

/-- Does `s` contain a match of the regex `pp ++ ".*" ++ qq` (DOTALL), i.e.
an occurrence of `pp` with an occurrence of `qq` starting at least
`pp.length` characters later? -/
def hasSpanMatch (pp qq : List Char) : List Char → Bool
  | [] => false
  | c :: t =>
    (pp.isPrefixOf (c :: t) && hasInfix qq (List.drop pp.length (c :: t)))
      || hasSpanMatch pp qq t

/-- Model of `re.sub(pp ++ ".*" ++ qq, "", s, flags=re.DOTALL)` for literal `pp`, `qq`:
Python finds the leftmost position carrying `pp` followed (at distance
`≥ pp.length`) by some `qq`, greedily extends to the last such `qq`, and
deletes the whole span; no further match can remain after it. -/
def removeSpan (pp qq : List Char) : List Char → List Char
  | [] => []
  | c :: t =>
    if pp.isPrefixOf (c :: t) && hasInfix qq (List.drop pp.length (c :: t))
    then afterLast qq (List.drop pp.length (c :: t))
    else c :: removeSpan pp qq t

/-- States of the quote-stripper: scanning normally, holding a pending
newline whose emission depends on the next character, or inside a quoted
line being deleted. -/
inductive QState where
  | normal
  | pendingNl
  | inQuote
deriving DecidableEq

/-- Model of `re.sub(r"(\n>.*)+", "", s)`, processed one character at a time: a
newline is held pending; if the next character is `>` the pair opens a
quoted line, which is deleted through its end (a newline ending it
becomes the new pending newline, so consecutive quoted lines are deleted
as one run), otherwise the pending newline is emitted.  A quote line at
the very start of the body has no preceding newline and is kept. -/
def removeQuotedAux : QState → List Char → List Char
  | .normal, [] => []
  | .normal, c :: t =>
    if c = '\n' then removeQuotedAux .pendingNl t
    else c :: removeQuotedAux .normal t
  | .pendingNl, [] => ['\n']
  | .pendingNl, c :: t =>
    if c = '>' then removeQuotedAux .inQuote t
    else if c = '\n' then '\n' :: removeQuotedAux .pendingNl t
    else '\n' :: c :: removeQuotedAux .normal t
  | .inQuote, [] => []
  | .inQuote, c :: t =>
    if c = '\n' then removeQuotedAux .pendingNl t
    else removeQuotedAux .inQuote t

/-- The quote-block removal stage of `_clean_email_body`. -/
def removeQuoted (s : List Char) : List Char :=
  removeQuotedAux .normal s

/-- Model of `re.sub(pat, "", s)` for a literal `pat`: delete every (leftmost,
non-overlapping) occurrence of `pat`.  A successful match at the head
consumes the first character and skips the remaining `pat.length - 1`
characters of the occurrence via the counter argument. -/
def removeAllAux (pat : List Char) : Nat → List Char → List Char
  | _, [] => []
  | n + 1, _ :: t => removeAllAux pat n t
  | 0, c :: t =>
    if pat.isPrefixOf (c :: t) && !pat.isEmpty
    then removeAllAux pat (pat.length - 1) t
    else c :: removeAllAux pat 0 t

/-- Deletion of every occurrence of a literal pattern. -/
def removeAll (pat : List Char) (s : List Char) : List Char :=
  removeAllAux pat 0 s

/-- Model of `re.sub(r"Securely access your accounts with.*chase\.com\.", "", s)`
(no DOTALL): at each occurrence of the opening literal, the greedy `.*`
may not cross a newline, so the match extends through the last occurrence
of `chase.com.` within the same line; scanning resumes right after the
match.  A match at the head consumes the first character and skips the
rest of the matched span via the counter argument, which is computed as
the span length minus one (the span runs from the head to the end of the
last in-line occurrence of the closing literal, so its length is the
whole input minus the kept remainder). -/
def removeSecurelyAux (pp qq : List Char) : Nat → List Char → List Char
  | _, [] => []
  | n + 1, _ :: t => removeSecurelyAux pp qq n t
  | 0, c :: t =>
    if pp.isPrefixOf (c :: t) && !pp.isEmpty
        && hasInfix qq ((List.drop pp.length (c :: t)).takeWhile (· ≠ '\n'))
    then
      removeSecurelyAux pp qq
        ((c :: t).length
          - ((afterLast qq ((List.drop pp.length (c :: t)).takeWhile (· ≠ '\n'))).length
              + ((List.drop pp.length (c :: t)).dropWhile (· ≠ '\n')).length)
          - 1) t
    else c :: removeSecurelyAux pp qq 0 t

/-- The boilerplate-sentence removal stage for the `Securely access …
chase.com.` pattern. -/
def removeSecurely (pp qq : List Char) (s : List Char) : List Char :=
  removeSecurelyAux pp qq 0 s

/-- Model of `re.sub(r"\n{3,}", "\n\n", s)`: collapse every maximal run of three
or more newlines to exactly two.  The counter argument holds the number
of pending newlines of the current run (capped at three); on leaving a
run, a run of one or two newlines is emitted unchanged and a longer run
is emitted as exactly two. -/
def collapseNlAux : Nat → List Char → List Char
  | k, [] => List.replicate (min k 2) '\n'
  | k, c :: t =>
    if c = '\n' then collapseNlAux (min (k + 1) 3) t
    else List.replicate (min k 2) '\n' ++ c :: collapseNlAux 0 t

/-- The newline-collapsing stage of `_clean_email_body`. -/
def collapseNl (s : List Char) : List Char :=
  collapseNlAux 0 s

/-- Python `str.strip()`: remove leading and trailing whitespace. -/
def pyStrip (s : List Char) : List Char :=
  ((s.dropWhile isPyWs).reverse.dropWhile isPyWs).reverse

/-- Tag removal, one character at a time; the flag records whether the
scan is inside a `<...>` span. -/
def stripTagsAux : Bool → List Char → List Char
  | _, [] => []
  | true, c :: t =>
    if c = '>' then stripTagsAux false t else stripTagsAux true t
  | false, c :: t =>
    if c = '<' then stripTagsAux true t else c :: stripTagsAux false t

/-- Remove HTML tag spans `<...>`. -/
def stripTags (s : List Char) : List Char :=
  stripTagsAux false s

/-- One-pass decoding of the basic HTML character entities. -/
def decodeEntities : List Char → List Char
  | '&' :: 'a' :: 'm' :: 'p' :: ';' :: t => '&' :: decodeEntities t
  | '&' :: 'l' :: 't' :: ';' :: t => '<' :: decodeEntities t
  | '&' :: 'g' :: 't' :: ';' :: t => '>' :: decodeEntities t
  | c :: t => c :: decodeEntities t
  | [] => []

/-- Model of `BeautifulSoup(body, "lxml").get_text()`: the external
HTML-to-text rendering used by `_clean_email_body`, modelled as tag
removal followed by one-pass entity decoding.  On markup-free text
(no `<`, no `&`) it is the identity, exactly as the library is. -/
def htmlToText (s : List Char) : List Char :=
  decodeEntities (stripTags s)

/-- The literal part of `r"---------- Forwarded message ---------.*"`. -/
def fwdPat : List Char := "---------- Forwarded message ---------".toList

/-- The literal `"On"`. -/
def onPat : List Char := "On".toList

/-- The literal `"wrote:"`. -/
def wrotePat : List Char := "wrote:".toList

/-- The marker `"\n>"` introducing a quoted line. -/
def nlGtPat : List Char := ['\n', '>']

/-- The signature delimiter marker `"\n--"`. -/
def nlDashPat : List Char := ['\n', '-', '-']

/-- The literal `"You are receiving this alert because"`. -/
def alertPat : List Char := "You are receiving this alert because".toList

/-- The literal `"account."`. -/
def accountPat : List Char := "account.".toList

/-- The literal `"Review account"`. -/
def reviewPat : List Char := "Review account".toList

/-- The literal `"Securely access your accounts with"`. -/
def securelyPat : List Char := "Securely access your accounts with".toList

/-- The literal `"chase.com."`. -/
def chasePat : List Char := "chase.com.".toList

/-- The literal `"About this message"`. -/
def aboutPat : List Char := "About this message".toList

/-- The literal `['\n','\n','\n']`. -/
def nl3Pat : List Char := ['\n', '\n', '\n']

/-- Model of `GmailClient._clean_email_body`: the body normalizer, with each
`re.sub` of the source translated in order. -/
def clean_email_body (s : List Char) : List Char :=
  pyStrip (collapseNl (truncAt aboutPat (removeSecurely securelyPat chasePat
    (removeAll reviewPat (removeSpan alertPat accountPat (truncAt nlDashPat
      (removeQuoted (removeSpan onPat wrotePat (truncAt fwdPat
        (htmlToText s))))))))))

/-- String-level wrapper of the normalizer. -/
def cleanBody (s : String) : String :=
  (clean_email_body s.toList).asString

/-! ## Extraction schema and structured extractor (`gemini_processor.py`) -/

/-- The Pydantic `BillInfo` model: every field is independently optional.
The Python `float` amount is embedded as a rational number. -/
structure BillInfo where
  merchant : Option String
  amount : Option ℚ
  bill_category : Option String
  date : Option String
deriving DecidableEq

/-- Model of `GeminiProcessor.extract_bill_info`: the provider call
(`self.bill_extractor(...)` followed by `prediction.bill_info`) either
returns a `BillInfo` or raises; the surrounding `try`/`except Exception`
converts every raised fault into `None`.  The provider outcome is the
argument; the function itself is total — no exception propagates. -/
def extract_bill_info (r : Except String BillInfo) : Option BillInfo :=
  match r with
  | .ok b => some b
  | .error _ => none

/-- Model of `GeminiProcessor._load_bill_category_mapping`: reading
`config/bill_categories.yaml`.  The argument encodes the file system and
parser outcome: `none` is `FileNotFoundError`, `some (.error ())` is
`yaml.YAMLError`, `some (.ok m)` is a parsed document.  Both failure
shapes return the empty mapping; a parsed document is returned as-is
(as an ordered association list, as Python 3.7+ dicts preserve insertion
order). -/
def load_bill_category_mapping
    (file : Option (Except Unit (List (String × String)))) :
    List (String × String) :=
  match file with
  | none => []
  | some (.error _) => []
  | some (.ok m) => m

/-- From `BillExtractor.__init__`: the mapping rendered as guidance lines, one
per key/value pair, in declaration order. -/
def mapping_str (mapping : List (String × String)) : String :=
  String.intercalate "\n" (mapping.map fun kv =>
    "- If merchant contains '" ++ kv.1 ++ "', category is '" ++ kv.2 ++ "'")

/-- From `BillExtractor.__init__`: the dynamically built `bill_category` field
description injected into the model signature. -/
def updated_bill_category_desc (mapping : List (String × String)) : String :=
  "The bill_category, select within the following: ('餐饮', '娱乐/购物', '水电网费', '房租', '车租和保险', '其他'). "
    ++ "Consider the following rules for categorization:\n"
    ++ mapping_str mapping

/-- Case-fold a string to lower-case characters. -/
def lowerChars (s : String) : List Char :=
  s.toList.map Char.toLower

/-- Modelled from the spec: the deterministic category resolver of
spec §4.2 (`resolve(merchant, mapping)` — case-insensitive substring
match, mapping keys checked in declaration order, first match wins).
The repository realizes this component only as prompt guidance text
(`BillExtractor.__init__` renders the mapping into
`updated_bill_category_desc`); no deterministic resolution procedure
exists under `src/`, so the resolver itself is modelled from the spec's
words. -/
def resolve (merchant : Option String) (mapping : List (String × String)) :
    Option String :=
  match merchant with
  | none => none
  | some m =>
    (mapping.find? fun kv => hasInfix (lowerChars kv.1) (lowerChars m)).map
      fun kv => kv.2

/-! ## Record sink (`notion_client.py`) -/

/-- Python `x or default` for an optional string field: `None` and the
empty string are falsy and replaced by the default. -/
def pyOrStr (v : Option String) (d : String) : String :=
  match v with
  | none => d
  | some s => if s = "" then d else s

/-- Python `x or default` for the numeric field: `None` (and `0.0`,
which is falsy) yield the default. -/
def pyOrRat (v : Option ℚ) (d : ℚ) : ℚ :=
  match v with
  | none => d
  | some a => if a = 0 then d else a

/-- The four property values `NotionClient.add_bill_to_notion` sends:
the title text of `支出项目`, the number of `支出金额`, the select name of
`支出类别` and the start date of `覆写日期`.  All four are plain values —
the payload has no representation of an absent field. -/
structure NotionBillProps where
  titleText : String
  numberValue : ℚ
  selectName : String
  dateStart : String
deriving DecidableEq

/-- Model of `NotionClient.add_bill_to_notion`, payload construction: each field
of the bill passes through Python `or` with the fixed defaults
`"Unknown"`, `0.0`, `"其他"` and `"2024-01-01"`. -/
def add_bill_to_notion_properties (b : BillInfo) : NotionBillProps :=
  { titleText := pyOrStr b.merchant "Unknown"
    numberValue := pyOrRat b.amount 0
    selectName := pyOrStr b.bill_category "其他"
    dateStart := pyOrStr b.date "2024-01-01" }

/-! ## Pipeline controller (`main.py`) -/

/-- A fetched unread email, as assembled by `GmailClient.get_unread_emails`. -/
structure Email where
  id : String
  subject : String
  sender : String
  body : String
deriving DecidableEq

/-- Externally visible effects of one controller run: a record-sink write
attempt (`add_bill_to_notion`), a mark-as-read call
(`mark_email_as_read`), and a run-log write attempt
(`log_workflow_run` with its `Status` and `Notes` values). -/
inductive Effect where
  | recordWrite (b : BillInfo)
  | markRead (id : String)
  | runLog (status : String) (notes : String)
deriving DecidableEq

/-- The four environment variables `main` requires. -/
structure Env where
  gemini_api_key : Option String
  notion_api_key : Option String
  notion_database_id : Option String
  notion_workflow_database_id : Option String

/-- Python truthiness of `os.environ.get(...)`: `None` and the empty
string are falsy. -/
def pyTruthyStr : Option String → Bool
  | none => false
  | some s => !(s == "")

/-- The `all([...])` credential check at the top of `main`. -/
def envAll (env : Env) : Bool :=
  pyTruthyStr env.gemini_api_key && pyTruthyStr env.notion_api_key
    && pyTruthyStr env.notion_database_id
    && pyTruthyStr env.notion_workflow_database_id

/-- The per-email loop of `main`.  `provider` is the outcome of the
language-model call inside `extract_bill_info` (`.error` = the call
raised); `sink` is `add_bill_to_notion` (`.error` = `requests.post`
raised, `.ok (some ())` = HTTP 200, `.ok none` = non-200, logged and
returned as `None`); `mark` is `mark_email_as_read` (`.error` = raised).
Returns the effect trace and the exception, if any, that aborted the
loop into the `except` branch of `main`.  Note the source ignores the
sink's return value: after a non-raising sink call it marks the email
read unconditionally, and it forwards every non-`None` `bill_info`
(`if bill_info:` — a Pydantic model instance is always truthy). -/
def mainLoop (provider : Email → Except String BillInfo)
    (sink : BillInfo → Except String (Option Unit))
    (mark : String → Except String Unit) :
    List Email → List Effect × Option String
  | [] => ([], none)
  | e :: rest =>
    match extract_bill_info (provider e) with
    | some b =>
      match sink b with
      | .error msg => ([Effect.recordWrite b], some msg)
      | .ok _ =>
        match mark e.id with
        | .error msg => ([Effect.recordWrite b], some msg)
        | .ok _ =>
          let r := mainLoop provider sink mark rest
          (Effect.recordWrite b :: Effect.markRead e.id :: r.1, r.2)
    | none => mainLoop provider sink mark rest

/-- Model of `main` in `main.py` as a trace of effects.  When the credential check
fails, the source sets `workflow_status = "Failed"` and
`workflow_notes = "Missing environment variables."` into local variables
and then `return`s — before the `NotionClient` is constructed and before
the `try`/`finally` block is entered — so that path performs no run-log
write and its trace is empty.  On every other path the `finally` clause
performs exactly one `log_workflow_run` attempt. -/
def mainEffects (env : Env) (fetch : Except String (List Email))
    (provider : Email → Except String BillInfo)
    (sink : BillInfo → Except String (Option Unit))
    (mark : String → Except String Unit) : List Effect :=
  if envAll env then
    match fetch with
    | .error msg =>
      [Effect.runLog "Failed" ("Workflow failed with error: " ++ msg)]
    | .ok emails =>
      let r := mainLoop provider sink mark emails
      match r.2 with
      | none => r.1 ++ [Effect.runLog "Success" "Successfully processed all bills."]
      | some msg =>
        r.1 ++ [Effect.runLog "Failed" ("Workflow failed with error: " ++ msg)]
  else
    []

/-- Is an effect a run-log write attempt? -/
def isRunLog : Effect → Bool
  | .runLog _ _ => true
  | _ => false

/-- Number of run-log write attempts in a trace. -/
def countRunLog (tr : List Effect) : Nat :=
  (tr.filter isRunLog).length

/-! ## Lemmas about the string transformers -/

theorem hasInfix_iff (pat : List Char) :
    ∀ s : List Char, hasInfix pat s = true ↔ pat <:+: s
  | [] => by
    simp [hasInfix, List.isPrefixOf_iff_prefix]
  | c :: t => by
    simp only [hasInfix, Bool.or_eq_true, List.isPrefixOf_iff_prefix,
      hasInfix_iff pat t, List.infix_cons_iff]

theorem hasInfix_eq_false (pat s : List Char) :
    hasInfix pat s = false ↔ ¬ pat <:+: s := by
  rw [← hasInfix_iff pat s]
  cases hasInfix pat s <;> simp

theorem suffix_of_suffix_length_le {l₁ l₂ l : List Char}
    (h1 : l₁ <:+ l) (h2 : l₂ <:+ l) (hle : l₁.length ≤ l₂.length) :
    l₁ <:+ l₂ := by
  have e1 := List.suffix_iff_eq_drop.mp h1
  have e2 := List.suffix_iff_eq_drop.mp h2
  have hl2 := h2.length_le
  have key : List.drop (l₂.length - l₁.length) l₂ = l₁ := by
    have hstep : List.drop (l₂.length - l₁.length) l₂
        = List.drop (l₂.length - l₁.length) (List.drop (l.length - l₂.length) l) := by
      rw [← e2]
    have harith : l.length - l₂.length + (l₂.length - l₁.length)
        = l.length - l₁.length := by omega
    rw [hstep, List.drop_drop, harith, ← e1]
  exact List.suffix_iff_eq_drop.mpr key.symm

theorem hasInfix_of_suffix {pat u v : List Char}
    (h : hasInfix pat u = true) (hs : u <:+ v) : hasInfix pat v = true :=
  (hasInfix_iff pat v).mpr (((hasInfix_iff pat u).mp h).trans hs.isInfix)

theorem afterLast_no (qq : List Char) (hqq : qq ≠ []) :
    ∀ u : List Char, hasInfix qq (afterLast qq u) = false
  | [] => by
    cases qq with
    | nil => exact absurd rfl hqq
    | cons q qs => simp [afterLast, hasInfix, List.isPrefixOf]
  | c :: t => by
    simp only [afterLast]
    split
    · exact afterLast_no qq hqq t
    · rename_i h1
      split
      · cases hh : hasInfix qq (List.drop qq.length (c :: t)) with
        | false => rfl
        | true =>
          exfalso
          obtain ⟨q, qs, rfl⟩ : ∃ q qs, qq = q :: qs := by
            cases qq with
            | nil => exact absurd rfl hqq
            | cons q qs => exact ⟨q, qs, rfl⟩
          rw [List.length_cons, List.drop_succ_cons] at hh
          exact h1 (hasInfix_of_suffix hh (List.drop_suffix qs.length t))
      · cases qq with
        | nil => exact absurd rfl hqq
        | cons q qs => simp [hasInfix, List.isPrefixOf]

theorem noInfix_noMatch (pp qq : List Char) :
    ∀ s : List Char, hasInfix qq s = false → hasSpanMatch pp qq s = false
  | [], _ => rfl
  | c :: t, h => by
    have hparts := Bool.or_eq_false_iff.mp (by simpa only [hasInfix] using h)
    simp only [hasSpanMatch]
    rw [noInfix_noMatch pp qq t hparts.2, Bool.or_false]
    have hd : hasInfix qq (List.drop pp.length (c :: t)) = false := by
      cases hh : hasInfix qq (List.drop pp.length (c :: t)) with
      | false => rfl
      | true =>
        exfalso
        have := hasInfix_of_suffix hh (List.drop_suffix pp.length (c :: t))
        rw [h] at this
        exact Bool.false_ne_true this
    rw [hd, Bool.and_false]

theorem removeSpan_id_of_noMatch (pp qq : List Char) :
    ∀ s : List Char, hasSpanMatch pp qq s = false → removeSpan pp qq s = s
  | [], _ => rfl
  | c :: t, h => by
    have hparts := Bool.or_eq_false_iff.mp (by simpa only [hasSpanMatch] using h)
    simp only [removeSpan]
    rw [if_neg (by simp [hparts.1]), removeSpan_id_of_noMatch pp qq t hparts.2]

theorem spanShape (pp qq : List Char) :
    ∀ s : List Char, hasSpanMatch pp qq s = true →
      ∃ front u, s = front ++ pp ++ u ∧ hasInfix qq u = true ∧
        removeSpan pp qq s = front ++ afterLast qq u ∧
        ∀ b : List Char, b <:+ front → b ≠ [] → ¬ pp <+: b ++ pp ++ u
  | [], h => by simp [hasSpanMatch] at h
  | c :: t, h => by
    by_cases hg :
        (pp.isPrefixOf (c :: t) && hasInfix qq (List.drop pp.length (c :: t))) = true
    · rw [Bool.and_eq_true] at hg
      have hpre : pp <+: (c :: t) := List.isPrefixOf_iff_prefix.mp hg.1
      obtain ⟨u, hu⟩ := hpre
      have hdropu : List.drop pp.length (c :: t) = u := by
        rw [← hu]; exact List.drop_left _ _
      refine ⟨[], u, by simpa using hu.symm, by rw [← hdropu]; exact hg.2, ?_, ?_⟩
      · simp only [removeSpan]
        rw [if_pos (Bool.and_eq_true_iff.mpr hg), hdropu, List.nil_append]
      · intro b hb hbne
        rw [List.suffix_nil] at hb
        exact absurd hb hbne
    · have hg' :
          (pp.isPrefixOf (c :: t) && hasInfix qq (List.drop pp.length (c :: t))) = false := by
        cases hx :
            (pp.isPrefixOf (c :: t) && hasInfix qq (List.drop pp.length (c :: t))) with
        | false => rfl
        | true => exact absurd hx hg
      have ht : hasSpanMatch pp qq t = true := by
        have := h
        simp only [hasSpanMatch, hg', Bool.false_or] at this
        exact this
      obtain ⟨front, u, hsplit, hinf, hrem, hearly⟩ := spanShape pp qq t ht
      refine ⟨c :: front, u, by rw [hsplit]; simp, hinf, ?_, ?_⟩
      · simp only [removeSpan]
        rw [if_neg (by simp [hg']), hrem]
        simp
      · intro b hb hbne
        rw [List.suffix_cons_iff] at hb
        cases hb with
        | inr hb' => exact hearly b hb' hbne
        | inl hb' =>
          subst hb'
          intro hcontra
          have hct : (c :: front) ++ pp ++ u = c :: t := by rw [hsplit]; simp
          have hpre' : pp.isPrefixOf (c :: t) = true :=
            List.isPrefixOf_iff_prefix.mpr (by rw [← hct]; exact hcontra)
          have husuf : u <:+ (c :: t) := ⟨c :: (front ++ pp), by simp [hsplit]⟩
          have hlen : u.length ≤ (List.drop pp.length (c :: t)).length := by
            have ht' : t.length = front.length + (pp.length + u.length) := by
              rw [hsplit]; simp
            simp only [List.length_drop, List.length_cons]
            omega
          have husuf2 : u <:+ List.drop pp.length (c :: t) :=
            suffix_of_suffix_length_le husuf (List.drop_suffix _ _) hlen
          have hinf' : hasInfix qq (List.drop pp.length (c :: t)) = true :=
            hasInfix_of_suffix hinf husuf2
          exact hg (Bool.and_eq_true_iff.mpr ⟨hpre', hinf'⟩)

theorem noMatchAppend (pp qq u : List Char) (hpp : pp ≠ []) :
    ∀ front B : List Char, hasInfix qq B = false →
      (∀ b : List Char, b <:+ front → b ≠ [] → ¬ pp <+: b ++ pp ++ u) →
      hasSpanMatch pp qq (front ++ B) = false
  | [], B, hB, _ => by simpa using noInfix_noMatch pp qq B hB
  | c :: front', B, hB, hP => by
    rw [List.cons_append]
    simp only [hasSpanMatch]
    rw [noMatchAppend pp qq u hpp front' B hB
      (fun b hb hbne => hP b (hb.trans (List.suffix_cons c front')) hbne),
      Bool.or_false]
    by_cases hlen : pp.length ≤ (c :: front').length
    · have hpre : pp.isPrefixOf (c :: (front' ++ B)) = false := by
        cases hx : pp.isPrefixOf (c :: (front' ++ B)) with
        | false => rfl
        | true =>
          exfalso
          have hx' : pp <+: (c :: front') ++ B := by
            rw [ List.isPrefixOf_iff_prefix] at hx
            simpa using hx
          have htake : pp = List.take pp.length ((c :: front') ++ B) :=
            List.prefix_iff_eq_take.mp hx'
          rw [List.take_append_of_le_length hlen] at htake
          have hx2 : pp <+: (c :: front') ++ (pp ++ u) := by
            rw [List.prefix_iff_eq_take, List.take_append_of_le_length hlen]
            exact htake
          exact hP (c :: front') List.suffix_rfl (List.cons_ne_nil c front')
            (by simpa using hx2)
      rw [hpre, Bool.false_and]
    · have hd : List.drop pp.length (c :: (front' ++ B))
          = List.drop (pp.length - (c :: front').length) B := by
        have hsplit : List.drop pp.length ((c :: front') ++ B)
            = List.drop (pp.length - (c :: front').length)
                (List.drop (c :: front').length ((c :: front') ++ B)) := by
          rw [List.drop_drop]
          congr 1
          omega
        rw [List.drop_left] at hsplit
        simpa using hsplit
      have hinf : hasInfix qq (List.drop pp.length (c :: (front' ++ B))) = false := by
        rw [hd]
        cases hx : hasInfix qq (List.drop (pp.length - (c :: front').length) B) with
        | false => rfl
        | true =>
          exfalso
          have := hasInfix_of_suffix hx (List.drop_suffix _ B)
          rw [hB] at this
          exact Bool.false_ne_true this
      rw [hinf, Bool.and_false]

/-- After one application of the span deletion, no match of the span
pattern remains: the prefix kept before the match contains no occurrence
of the opening literal, and the suffix kept after the last occurrence of
the closing literal contains no further closing literal. -/
theorem removeSpan_noMatch (pp qq : List Char) (hpp : pp ≠ []) (hqq : qq ≠ []) :
    ∀ s : List Char, hasSpanMatch pp qq (removeSpan pp qq s) = false := by
  intro s
  by_cases hm : hasSpanMatch pp qq s = true
  · obtain ⟨front, u, _, _, hrem, hearly⟩ := spanShape pp qq s hm
    rw [hrem]
    exact noMatchAppend pp qq u hpp front (afterLast qq u)
      (afterLast_no qq hqq u) hearly
  · have hm' : hasSpanMatch pp qq s = false := by
      cases hx : hasSpanMatch pp qq s with
      | false => rfl
      | true => exact absurd hx hm
    rw [removeSpan_id_of_noMatch pp qq s hm']
    exact hm'

/-! ## Identity of each normalizer stage on trigger-free text -/

theorem truncAt_id (pat : List Char) :
    ∀ s : List Char, hasInfix pat s = false → truncAt pat s = s
  | [], _ => rfl
  | c :: t, h => by
    have hparts := Bool.or_eq_false_iff.mp (by simpa only [hasInfix] using h)
    simp only [truncAt]
    rw [if_neg (by simp [hparts.1]), truncAt_id pat t hparts.2]

theorem nlGt_isPrefixOf_elim {x : Char} {l : List Char}
    (h : nlGtPat.isPrefixOf (x :: l) = true) : x = '\n' ∧ l.head? = some '>' := by
  rw [ List.isPrefixOf_iff_prefix] at h
  obtain ⟨hx, h2⟩ := List.cons_prefix_cons.mp h
  refine ⟨hx.symm, ?_⟩
  cases l with
  | nil =>
    rw [List.prefix_nil] at h2
    exact absurd h2 (by simp)
  | cons d u =>
    have hd := (List.cons_prefix_cons.mp h2).1
    simp [← hd]

theorem nlGt_not_prefixOf {x : Char} {l : List Char}
    (h : x ≠ '\n' ∨ l.head? ≠ some '>') : nlGtPat.isPrefixOf (x :: l) = false := by
  cases hx : nlGtPat.isPrefixOf (x :: l) with
  | false => rfl
  | true =>
    obtain ⟨h1, h2⟩ := nlGt_isPrefixOf_elim hx
    cases h with
    | inl hh => exact absurd h1 hh
    | inr hh => exact absurd h2 hh

theorem hasInfix_cons_false {pat : List Char} {c : Char} {l : List Char}
    (h1 : pat.isPrefixOf (c :: l) = false) (h2 : hasInfix pat l = false) :
    hasInfix pat (c :: l) = false := by
  simp only [hasInfix, h1, h2, Bool.or_false]

theorem removeQuotedAux_id :
    ∀ s : List Char,
      (hasInfix nlGtPat s = false → removeQuotedAux .normal s = s) ∧
      (hasInfix nlGtPat ('\n' :: s) = false →
        removeQuotedAux .pendingNl s = '\n' :: s)
  | [] => ⟨fun _ => rfl, fun _ => rfl⟩
  | c :: t => by
    constructor
    · intro h
      have hparts := Bool.or_eq_false_iff.mp (by simpa only [hasInfix] using h)
      by_cases hc : c = '\n'
      · subst hc
        simp only [removeQuotedAux, if_pos rfl]
        exact (removeQuotedAux_id t).2 h
      · simp only [removeQuotedAux, if_neg hc]
        rw [(removeQuotedAux_id t).1 hparts.2]
    · intro h
      have hparts := Bool.or_eq_false_iff.mp (by simpa only [hasInfix] using h)
      have hcgt : c ≠ '>' := by
        intro hc
        subst hc
        have : nlGtPat.isPrefixOf ('\n' :: '>' :: t) = true := by
          rw [ List.isPrefixOf_iff_prefix]
          exact List.cons_prefix_cons.mpr
            ⟨rfl, List.cons_prefix_cons.mpr ⟨rfl, List.nil_prefix⟩⟩
        rw [hparts.1] at this
        exact Bool.false_ne_true this
      by_cases hc : c = '\n'
      · subst hc
        have hrec := (removeQuotedAux_id t).2 hparts.2
        simp [removeQuotedAux, hcgt, hrec]
      · simp only [removeQuotedAux, if_neg hcgt, if_neg hc]
        have hpartsT := Bool.or_eq_false_iff.mp
          (by simpa only [hasInfix] using hparts.2)
        rw [(removeQuotedAux_id t).1 hpartsT.2]

theorem removeQuoted_id (s : List Char) (h : hasInfix nlGtPat s = false) :
    removeQuoted s = s :=
  (removeQuotedAux_id s).1 h

theorem removeQuotedAux_noQuote :
    ∀ s : List Char,
      hasInfix nlGtPat (removeQuotedAux .normal s) = false ∧
      hasInfix nlGtPat (removeQuotedAux .pendingNl s) = false ∧
      hasInfix nlGtPat (removeQuotedAux .inQuote s) = false ∧
      (removeQuotedAux .pendingNl s).head? ≠ some '>' ∧
      (removeQuotedAux .inQuote s).head? ≠ some '>'
  | [] => ⟨by decide, by decide, by decide, by decide, by decide⟩
  | c :: t => by
    obtain ⟨f1, f2, f3, f4, f5⟩ := removeQuotedAux_noQuote t
    by_cases hcn : c = '\n'
    · subst hcn
      refine ⟨?_, ?_, ?_, ?_, ?_⟩
      · simp only [removeQuotedAux, if_pos rfl]
        exact f2
      · simp only [removeQuotedAux, if_neg (by decide : ¬ ('\n' : Char) = '>'),
          if_pos rfl]
        refine hasInfix_cons_false (nlGt_not_prefixOf (Or.inr f4)) f2
      · simp only [removeQuotedAux, if_pos rfl]
        exact f2
      · simp only [removeQuotedAux, if_neg (by decide : ¬ ('\n' : Char) = '>'),
          if_pos rfl]
        simp
      · simp only [removeQuotedAux, if_pos rfl]
        exact f4
    · by_cases hcgt : c = '>'
      · subst hcgt
        refine ⟨?_, ?_, ?_, ?_, ?_⟩
        · simp only [removeQuotedAux, if_neg hcn]
          exact hasInfix_cons_false (nlGt_not_prefixOf (Or.inl hcn)) f1
        · simp only [removeQuotedAux, if_pos rfl]
          exact f3
        · simp only [removeQuotedAux, if_neg hcn]
          exact f3
        · simp only [removeQuotedAux, if_pos rfl]
          exact f5
        · simp only [removeQuotedAux, if_neg hcn]
          exact f5
      · refine ⟨?_, ?_, ?_, ?_, ?_⟩
        · simp only [removeQuotedAux, if_neg hcn]
          exact hasInfix_cons_false (nlGt_not_prefixOf (Or.inl hcn)) f1
        · simp only [removeQuotedAux, if_neg hcgt, if_neg hcn]
          refine hasInfix_cons_false (nlGt_not_prefixOf (Or.inr ?_)) ?_
          · simp [hcgt]
          · exact hasInfix_cons_false (nlGt_not_prefixOf (Or.inl hcn)) f1
        · simp only [removeQuotedAux, if_neg hcn]
          exact f3
        · simp only [removeQuotedAux, if_neg hcgt, if_neg hcn]
          simp
        · simp only [removeQuotedAux, if_neg hcn]
          exact f5

theorem removeQuoted_noQuote (s : List Char) :
    hasInfix nlGtPat (removeQuoted s) = false :=
  (removeQuotedAux_noQuote s).1

theorem removeAll_id (pat : List Char) :
    ∀ s : List Char, hasInfix pat s = false → removeAll pat s = s
  | [], _ => rfl
  | c :: t, h => by
    have hparts := Bool.or_eq_false_iff.mp (by simpa only [hasInfix] using h)
    show removeAllAux pat 0 (c :: t) = c :: t
    simp only [removeAllAux]
    rw [if_neg (by simp [hparts.1])]
    exact congrArg (c :: ·) (removeAll_id pat t hparts.2)

theorem removeSecurely_id (pp qq : List Char) :
    ∀ s : List Char, hasInfix pp s = false → removeSecurely pp qq s = s
  | [], _ => rfl
  | c :: t, h => by
    have hparts := Bool.or_eq_false_iff.mp (by simpa only [hasInfix] using h)
    show removeSecurelyAux pp qq 0 (c :: t) = c :: t
    simp only [removeSecurelyAux]
    rw [if_neg (by simp [hparts.1])]
    exact congrArg (c :: ·) (removeSecurely_id pp qq t hparts.2)

theorem collapseNlAux_id :
    ∀ (s : List Char) (k : Nat), k ≤ 2 →
      hasInfix nl3Pat (List.replicate k '\n' ++ s) = false →
      collapseNlAux k s = List.replicate k '\n' ++ s
  | [], k, hk, _ => by
    show List.replicate (min k 2) '\n' = _
    rw [Nat.min_eq_left hk, List.append_nil]
  | c :: t, k, hk, h => by
    by_cases hc : c = '\n'
    · subst hc
      have hk1 : k + 1 ≤ 2 := by
        by_cases hk2 : k = 2
        · exfalso
          subst hk2
          rw [hasInfix_eq_false] at h
          exact h ⟨[], t, by simp [nl3Pat, List.replicate]⟩
        · omega
      have hrepl : List.replicate (k + 1) '\n' ++ t
          = List.replicate k '\n' ++ '\n' :: t := by
        rw [List.replicate_succ']
        simp
      simp only [collapseNlAux, if_pos rfl]
      rw [Nat.min_eq_left (by omega : k + 1 ≤ 3)]
      rw [collapseNlAux_id t (k + 1) hk1 (by rw [hrepl]; exact h)]
      exact hrepl
    · have htail : hasInfix nl3Pat t = false := by
        have hsuf : t <:+ List.replicate k '\n' ++ c :: t :=
          (List.suffix_cons c t).trans (List.suffix_append _ _)
        cases hx : hasInfix nl3Pat t with
        | false => rfl
        | true =>
          exfalso
          have := hasInfix_of_suffix hx hsuf
          rw [h] at this
          exact Bool.false_ne_true this
      simp only [collapseNlAux, if_neg hc]
      rw [Nat.min_eq_left hk]
      rw [collapseNlAux_id t 0 (by omega) (by simpa using htail)]
      simp

theorem collapseNl_id (s : List Char) (h : hasInfix nl3Pat s = false) :
    collapseNl s = s := by
  have := collapseNlAux_id s 0 (by omega) (by simpa using h)
  simpa using this

/-! ## Lemmas about the controller trace -/

theorem countRunLog_append (l1 l2 : List Effect) :
    countRunLog (l1 ++ l2) = countRunLog l1 + countRunLog l2 := by
  simp [countRunLog, List.filter_append]

theorem mainLoop_no_runLog (provider : Email → Except String BillInfo)
    (sink : BillInfo → Except String (Option Unit))
    (mark : String → Except String Unit) :
    ∀ emails : List Email,
      countRunLog (mainLoop provider sink mark emails).1 = 0
  | [] => rfl
  | e :: rest => by
    simp only [mainLoop]
    cases extract_bill_info (provider e) with
    | none => exact mainLoop_no_runLog provider sink mark rest
    | some b =>
      dsimp only
      cases sink b with
      | error msg => rfl
      | ok r =>
        dsimp only
        cases mark e.id with
        | error msg => rfl
        | ok u => exact mainLoop_no_runLog provider sink mark rest

/-- On every path of `main` that passes the credential check, the
`finally` clause produces exactly one run-log write attempt. -/
theorem mainEffects_one_runLog (env : Env) (fetch : Except String (List Email))
    (provider : Email → Except String BillInfo)
    (sink : BillInfo → Except String (Option Unit))
    (mark : String → Except String Unit)
    (henv : envAll env = true) :
    countRunLog (mainEffects env fetch provider sink mark) = 1 := by
  simp only [mainEffects, if_pos henv]
  cases fetch with
  | error msg => rfl
  | ok emails =>
    dsimp only
    cases hr : (mainLoop provider sink mark emails).2 with
    | none =>
      dsimp only
      rw [countRunLog_append, mainLoop_no_runLog]
      rfl
    | some msg =>
      dsimp only
      rw [countRunLog_append, mainLoop_no_runLog]
      rfl

/-! ## Claims -/

/-- C1: the claim says every run of `main` performs exactly one
WorkflowRunLog write, including the startup configuration-error path,
which should still log a `Failed` run.  Evaluating the controller at
the failing input — an environment with `GEMINI_API_KEY` unset — shows
the run returns with an empty effect trace: zero run-log writes, because
the source `return`s before the `NotionClient` exists and before the
`try`/`finally` block is entered, even though it assigns
`workflow_status = "Failed"` with a comment announcing the log. -/
theorem config_error_no_runlog :
    mainEffects
        { gemini_api_key := none, notion_api_key := some "k",
          notion_database_id := some "d",
          notion_workflow_database_id := some "w" }
        (Except.ok []) (fun _ => Except.error "unused")
        (fun _ => Except.ok (some ())) (fun _ => Except.ok ()) = [] ∧
    countRunLog (mainEffects
        { gemini_api_key := none, notion_api_key := some "k",
          notion_database_id := some "d",
          notion_workflow_database_id := some "w" }
        (Except.ok []) (fun _ => Except.error "unused")
        (fun _ => Except.ok (some ())) (fun _ => Except.ok ())) = 0 :=
  ⟨rfl, rfl⟩

/-- C2 counterexample: a run with one email whose extraction succeeds and
whose record the sink rejects (HTTP non-200, `add_bill_to_notion` returns
`None` without raising) still marks the email as read — the source
ignores the sink's return value — refuting the claim that the email is
left unread on a reported sink failure. -/
theorem sink_failure_marks_read_cx :
    mainEffects
        { gemini_api_key := some "g", notion_api_key := some "k",
          notion_database_id := some "d",
          notion_workflow_database_id := some "w" }
        (Except.ok [{ id := "m1", subject := "s", sender := "x", body := "b" }])
        (fun _ => Except.ok
          { merchant := some "M", amount := some 5, bill_category := some "c",
            date := some "2025-01-01" })
        (fun _ => Except.ok none)
        (fun _ => Except.ok ()) =
      [Effect.recordWrite
        { merchant := some "M", amount := some 5, bill_category := some "c",
          date := some "2025-01-01" },
       Effect.markRead "m1",
       Effect.runLog "Success" "Successfully processed all bills."] :=
  rfl

/-- C2 (amended): the controller marks the source email as read whenever
extraction yields a record and the storage call returns — regardless of
the success or failure the sink reports; only a sink call that raises an
exception (aborting the run) leaves the email unread. -/
theorem markRead_despite_sink_failure
    (e : Email) (rest : List Email)
    (provider : Email → Except String BillInfo)
    (sink : BillInfo → Except String (Option Unit))
    (mark : String → Except String Unit) (b : BillInfo)
    (hp : provider e = Except.ok b)
    (hs : sink b = Except.ok none)
    (hm : mark e.id = Except.ok ()) :
    Effect.markRead e.id ∈ (mainLoop provider sink mark (e :: rest)).1 := by
  simp only [mainLoop, hp, extract_bill_info, hs, hm]
  simp

/-- C2 witness: the amended statement applied to a concrete run. -/
theorem markRead_despite_sink_failure_witness :
    Effect.markRead "m1" ∈ (mainLoop
      (fun _ => Except.ok
        { merchant := some "M", amount := some 5, bill_category := some "c",
          date := some "2025-01-01" })
      (fun _ => Except.ok none) (fun _ => Except.ok ())
      [{ id := "m1", subject := "s", sender := "x", body := "b" }]).1 :=
  markRead_despite_sink_failure
    { id := "m1", subject := "s", sender := "x", body := "b" } [] _ _ _
    { merchant := some "M", amount := some 5, bill_category := some "c",
      date := some "2025-01-01" }
    rfl rfl rfl

/-- C3 counterexample: an extraction result whose four fields are all
empty is not treated as "no bill found": `if bill_info:` is true for any
non-`None` Pydantic object, so the all-empty record is forwarded to the
sink and the email is marked read. -/
theorem empty_record_forwarded_cx :
    mainEffects
        { gemini_api_key := some "g", notion_api_key := some "k",
          notion_database_id := some "d",
          notion_workflow_database_id := some "w" }
        (Except.ok [{ id := "m1", subject := "s", sender := "x", body := "b" }])
        (fun _ => Except.ok
          { merchant := none, amount := none, bill_category := none,
            date := none })
        (fun _ => Except.ok (some ()))
        (fun _ => Except.ok ()) =
      [Effect.recordWrite
        { merchant := none, amount := none, bill_category := none,
          date := none },
       Effect.markRead "m1",
       Effect.runLog "Success" "Successfully processed all bills."] :=
  rfl

/-- C3 (amended): only an extraction result of `None` is treated as "no
bill found" (skipped, email left unread); a returned record is forwarded
to the storage sink even when all four of its fields are empty, and the
email is then marked read once the sink call returns. -/
theorem empty_record_still_forwarded
    (e : Email) (rest : List Email)
    (provider : Email → Except String BillInfo)
    (sink : BillInfo → Except String (Option Unit))
    (mark : String → Except String Unit) (r : Option Unit)
    (hp : provider e = Except.ok
      { merchant := none, amount := none, bill_category := none, date := none })
    (hs : sink
      { merchant := none, amount := none, bill_category := none, date := none }
      = Except.ok r)
    (hm : mark e.id = Except.ok ()) :
    Effect.recordWrite
        { merchant := none, amount := none, bill_category := none, date := none }
      ∈ (mainLoop provider sink mark (e :: rest)).1 ∧
    Effect.markRead e.id ∈ (mainLoop provider sink mark (e :: rest)).1 := by
  simp only [mainLoop, hp, extract_bill_info, hs, hm]
  constructor <;> simp

/-- C3 witness: the amended statement applied to a concrete run. -/
theorem empty_record_still_forwarded_witness :
    Effect.recordWrite
        { merchant := none, amount := none, bill_category := none, date := none }
      ∈ (mainLoop
        (fun _ => Except.ok
          { merchant := none, amount := none, bill_category := none,
            date := none })
        (fun _ => Except.ok (some ())) (fun _ => Except.ok ())
        [{ id := "m1", subject := "s", sender := "x", body := "b" }]).1 ∧
    Effect.markRead "m1"
      ∈ (mainLoop
        (fun _ => Except.ok
          { merchant := none, amount := none, bill_category := none,
            date := none })
        (fun _ => Except.ok (some ())) (fun _ => Except.ok ())
        [{ id := "m1", subject := "s", sender := "x", body := "b" }]).1 :=
  empty_record_still_forwarded
    { id := "m1", subject := "s", sender := "x", body := "b" } [] _ _ _
    (some ()) rfl rfl rfl

/-- C4 counterexample: the normalizer is not idempotent.  On the body
`"On hi wrReview accountote:"` the first pass only removes the literal
`"Review account"`, splicing the fragments into `"On hi wrote:"`; the
second pass then matches `On.*wrote:` and deletes everything, so
`normalize (normalize x) ≠ normalize x`. -/
theorem normalize_not_idem_cx :
    clean_email_body (clean_email_body "On hi wrReview accountote:".toList)
      ≠ clean_email_body "On hi wrReview accountote:".toList := by
  decide

/-- C4 (amended): the normalizer is idempotent on every input whose
normalized output is a fixed point of each pipeline stage — i.e. the
output contains no markup or entities, no occurrence of any removal
trigger (forwarded-message marker, `On …`-then-`wrote:` span, `\n>`
quote marker, `\n--` signature marker, alert-sentence span,
`Review account`, `Securely access …` opener, `About this message`,
three consecutive newlines) and is whitespace-trimmed.  In general a
substitution can splice a new trigger occurrence out of adjacent
fragments, and a second application then removes more text. -/
theorem normalize_idem_of_fixed (x : List Char)
    (h0 : htmlToText (clean_email_body x) = clean_email_body x)
    (h1 : hasInfix fwdPat (clean_email_body x) = false)
    (h2 : hasSpanMatch onPat wrotePat (clean_email_body x) = false)
    (h3 : hasInfix nlGtPat (clean_email_body x) = false)
    (h4 : hasInfix nlDashPat (clean_email_body x) = false)
    (h5 : hasSpanMatch alertPat accountPat (clean_email_body x) = false)
    (h6 : hasInfix reviewPat (clean_email_body x) = false)
    (h7 : hasInfix securelyPat (clean_email_body x) = false)
    (h8 : hasInfix aboutPat (clean_email_body x) = false)
    (h9 : hasInfix nl3Pat (clean_email_body x) = false)
    (h10 : pyStrip (clean_email_body x) = clean_email_body x) :
    clean_email_body (clean_email_body x) = clean_email_body x := by
  generalize hy : clean_email_body x = y at h0 h1 h2 h3 h4 h5 h6 h7 h8 h9 h10
  show pyStrip (collapseNl (truncAt aboutPat (removeSecurely securelyPat chasePat
    (removeAll reviewPat (removeSpan alertPat accountPat (truncAt nlDashPat
      (removeQuoted (removeSpan onPat wrotePat (truncAt fwdPat
        (htmlToText y)))))))))) = y
  rw [h0, truncAt_id fwdPat y h1, removeSpan_id_of_noMatch onPat wrotePat y h2,
    removeQuoted_id y h3, truncAt_id nlDashPat y h4,
    removeSpan_id_of_noMatch alertPat accountPat y h5,
    removeAll_id reviewPat y h6, removeSecurely_id securelyPat chasePat y h7,
    truncAt_id aboutPat y h8, collapseNl_id y h9, h10]

/-- C4 witness: the amended statement applied to the body `"hello"`,
whose normalized output is trigger-free. -/
theorem normalize_idem_of_fixed_witness :
    clean_email_body (clean_email_body "hello".toList)
      = clean_email_body "hello".toList :=
  normalize_idem_of_fixed "hello".toList (by decide) (by decide) (by decide)
    (by decide) (by decide) (by decide) (by decide) (by decide) (by decide)
    (by decide) (by decide)

/-- C5 counterexample: on a body with a reply-attribution line the
normalizer does not truncate to the end of the body — the text `"tail"`
after `wrote:` survives in the output, refuting "everything from that
marker to the end of the body is absent". -/
theorem onWrote_no_truncation_cx :
    clean_email_body "Pay $5\nOn Mon, Bob wrote:\ntail".toList
        = "Pay $5\n\ntail".toList ∧
      hasInfix "tail".toList
        (clean_email_body "Pay $5\nOn Mon, Bob wrote:\ntail".toList) = true := by
  constructor
  · decide
  · decide

/-- C5 (amended): the attribution stage removes exactly the span from the
first `On` that is later followed by `wrote:` through the end of the last
`wrote:`, keeping the text after it; after the stage no
`On …`-then-`wrote:` pattern remains anywhere in the body. -/
theorem onWrote_removes_span_completely (s : List Char) :
    hasSpanMatch onPat wrotePat (removeSpan onPat wrotePat s) = false :=
  removeSpan_noMatch onPat wrotePat (by decide) (by decide) s

/-- C6 counterexample: a quote block at the very start of the body has no
preceding newline, so `re.sub(r"(\n>.*)+", "", ...)` does not remove it:
the quoted line `"> secret"` appears verbatim in the normalizer's
output. -/
theorem quote_first_line_kept_cx :
    clean_email_body "> secret\nhello".toList = "> secret\nhello".toList ∧
      hasInfix "> secret".toList
        (clean_email_body "> secret\nhello".toList) = true := by
  constructor
  · decide
  · decide

/-- C6 (amended): the quote-removal stage deletes every quoted line that
is introduced by a newline: its output never contains a newline
immediately followed by `>`, so no quoted line other than one at the very
start of the body survives this stage. -/
theorem removeQuoted_no_quoted_line (s : List Char) :
    hasInfix nlGtPat (removeQuoted s) = false :=
  (removeQuotedAux_noQuote s).1

/-- C7: every failure of the provider call is caught at the
`extract_bill_info` boundary and converted to `None`, and the controller
loop finishes its whole batch without an uncaught fault whenever the sink
and mark-as-read calls themselves do not raise — extraction failures
never abort the run. -/
theorem extraction_failures_contained
    (emails : List Email)
    (provider : Email → Except String BillInfo)
    (sink : BillInfo → Except String (Option Unit))
    (mark : String → Except String Unit)
    (hsink : ∀ b, ∃ r, sink b = Except.ok r)
    (hmark : ∀ i, mark i = Except.ok ()) :
    (∀ err : String,
      extract_bill_info (Except.error err : Except String BillInfo) = none) ∧
    (mainLoop provider sink mark emails).2 = none := by
  refine ⟨fun _ => rfl, ?_⟩
  induction emails with
  | nil => rfl
  | cons e rest ih =>
    simp only [mainLoop]
    cases extract_bill_info (provider e) with
    | none => exact ih
    | some b =>
      dsimp only
      obtain ⟨r, hr⟩ := hsink b
      rw [hr, hmark e.id]
      exact ih

/-- C7 witness: a concrete two-email run whose provider raises on every
item still completes with no uncaught fault. -/
theorem extraction_failures_contained_witness :
    (∀ err : String,
      extract_bill_info (Except.error err : Except String BillInfo) = none) ∧
    (mainLoop (fun _ => Except.error "transport failure")
      (fun _ => Except.ok (some ())) (fun _ => Except.ok ())
      [{ id := "m1", subject := "s", sender := "x", body := "b" },
       { id := "m2", subject := "s2", sender := "x2", body := "b2" }]).2
      = none :=
  extraction_failures_contained _ _ _ _ (fun _ => ⟨some (), rfl⟩) (fun _ => rfl)

/-- C8: an absent mapping file (`FileNotFoundError`) and a file that
fails to parse (`yaml.YAMLError`) both degrade to the empty mapping, and
the extractor construction proceeds with it: the rendered guidance is
empty, so the categorization description carries no rules and extraction
runs on model judgment alone. -/
theorem mapping_load_degrades_to_empty :
    load_bill_category_mapping none = [] ∧
    load_bill_category_mapping (some (Except.error ())) = [] ∧
    mapping_str (load_bill_category_mapping none) = "" ∧
    updated_bill_category_desc (load_bill_category_mapping none)
      = updated_bill_category_desc [] :=
  ⟨rfl, by decide, by decide, rfl⟩

/-- C9: category resolution is order-dependent with first match winning:
with the mapping `[("VILLAGE","dining"), ("BARCLAY VILLAGE","shopping")]`
the merchant `"BARCLAY VILLAGE"` resolves to `"dining"`, not
`"shopping"`; and the guidance text the extractor is actually built with
renders the rules in exactly that declaration order. -/
theorem resolve_first_match_wins :
    resolve (some "BARCLAY VILLAGE")
        [("VILLAGE", "dining"), ("BARCLAY VILLAGE", "shopping")]
      = some "dining" ∧
    mapping_str [("VILLAGE", "dining"), ("BARCLAY VILLAGE", "shopping")]
      = "- If merchant contains 'VILLAGE', category is 'dining'\n- If merchant contains 'BARCLAY VILLAGE', category is 'shopping'" := by
  constructor
  · decide
  · decide

/-- C10: `add_bill_to_notion` silently replaces every empty field by its
fixed default before the write — merchant `"Unknown"`, amount `0.0`,
category `"其他"`, date `"2024-01-01"` — so the payload sent to the sink
never has an absent field (its four property values are plain,
non-optional values by construction). -/
theorem sink_defaults_fill_empty_fields (b : BillInfo) :
    (b.merchant = none →
      (add_bill_to_notion_properties b).titleText = "Unknown") ∧
    (b.amount = none →
      (add_bill_to_notion_properties b).numberValue = 0) ∧
    (b.bill_category = none →
      (add_bill_to_notion_properties b).selectName = "其他") ∧
    (b.date = none →
      (add_bill_to_notion_properties b).dateStart = "2024-01-01") := by
  refine ⟨fun h => ?_, fun h => ?_, fun h => ?_, fun h => ?_⟩ <;>
    simp [add_bill_to_notion_properties, pyOrStr, pyOrRat, h]

/-- C10 witness: the defaults on the all-empty record. -/
theorem sink_defaults_fill_empty_fields_witness :
    ({ merchant := none, amount := none, bill_category := none, date := none }
        : BillInfo).merchant = none ∧
    (add_bill_to_notion_properties
      { merchant := none, amount := none, bill_category := none, date := none
        }).titleText = "Unknown" ∧
    (add_bill_to_notion_properties
      { merchant := none, amount := none, bill_category := none, date := none
        }).numberValue = 0 ∧
    (add_bill_to_notion_properties
      { merchant := none, amount := none, bill_category := none, date := none
        }).selectName = "其他" ∧
    (add_bill_to_notion_properties
      { merchant := none, amount := none, bill_category := none, date := none
        }).dateStart = "2024-01-01" :=
  ⟨rfl, (sink_defaults_fill_empty_fields _).1 rfl,
    (sink_defaults_fill_empty_fields _).2.1 rfl,
    (sink_defaults_fill_empty_fields _).2.2.1 rfl,
    (sink_defaults_fill_empty_fields _).2.2.2 rfl⟩
